import Mathlib

/-!
Verification development for the ship/fleet deliverable-tracking model.

The Python source (ship.py) stores each deliverable ("Ship") as nested
string-keyed dictionaries of rational-valued entries and computes a quality
score, market buy-in estimates, and analytic buy-in derivatives.  We embed
the arithmetic over the rationals, string-keyed stores as ordered association
lists (Python dicts preserve insertion order), and raising code as
Option-valued functions (none = an exception escapes the call).
-/

/-- One row of the Market Segments reference table: the Weight column and the
Default Compatibility column, indexed by segment name. -/
structure MarketSegment where
  weight : ℚ
  defaultCompatibility : ℚ
deriving DecidableEq, Repr

/-- A row of the Markets reference table: segment name to membership count. -/
abbrev MarketRow := List (String × ℚ)

/-- The Markets reference table: market name to its row. -/
abbrev MarketsTable := List (String × MarketRow)

/-- The Market Segments reference table keyed by segment name. -/
abbrev MarketSegmentsTable := List (String × MarketSegment)

/-- Dictionary lookup: first value stored under the key.  Python dict
indexing raises KeyError when absent, modelled as none. -/
def getKey {α : Type} (l : List (String × α)) (k : String) : Option α :=
  (l.find? (fun p => p.1 == k)).map Prod.snd

/-- Python dict assignment: replace in place when the key exists, otherwise
append at the end (dicts preserve insertion order). -/
def setKey {α : Type} (l : List (String × α)) (k : String) (v : α) :
    List (String × α) :=
  if l.any (fun p => p.1 == k) then
    l.map (fun p => if p.1 == k then (k, v) else p)
  else l ++ [(k, v)]

/-- Python dict deletion of the entries stored under the key. -/
def delKey {α : Type} (l : List (String × α)) (k : String) : List (String × α) :=
  l.filter (fun p => !(p.1 == k))

/-- Run an Option-valued function over a list, collecting the results and
failing as soon as one call fails.  Models a Python loop from which an
exception escapes. -/
def mapMOpt {α β : Type} (f : α → Option β) : List α → Option (List β)
  | [] => some []
  | a :: as =>
    match f a, mapMOpt f as with
    | some b, some bs => some (b :: bs)
    | _, _ => none

/-- Deliverable state: the fields of Ship.data (criteria values, market
segment compatibilities, market compatibilities, the held-constant list and
the attrs block) together with the name attribute and the stored
critical value. -/
structure Ship where
  name : String
  criteriaValues : List (String × ℚ)
  marketSegments : List (String × ℚ)
  markets : List (String × ℚ)
  heldConstant : List (String × String)
  criticalValue : ℚ
  attrsName : String := ""
  description : String := ""
  category : String := ""
deriving DecidableEq, Repr

/-- Ship.estimate_quality: the code scales every present criteria value by a
fixed factor of 10 and takes the product; the stored critical value is not
read by this function. -/
def Ship.estimate_quality (s : Ship) : ℚ :=
  (s.criteriaValues.map (fun p => p.2 / 10)).prod

/-- Ship.estimate_market_segment_buyin: B_ik = q_k * b_i * f_ik.  The weight
b_i comes from the reference table (a missing segment row raises) and f_ik is
read directly from the market segments store (a missing entry raises a
KeyError).  The use-default flag is accepted by the Python signature but its
body never reads it. -/
def Ship.estimate_market_segment_buyin (s : Ship) (segTbl : MarketSegmentsTable)
    (msName : String) (useDefaultForMissingValues : Bool) : Option ℚ :=
  let q_k := s.estimate_quality
  match getKey segTbl msName with
  | none => none
  | some seg =>
    match getKey s.marketSegments msName with
    | none => none
    | some f_ik => some (q_k * seg.weight * f_ik)

/-- Ship.estimate_market_buyin: B_jk = F_jk * sum over the market row of
n_ij * B_ik.  The row lookup, each segment buy-in, and the market
compatibility lookup can each raise. -/
def Ship.estimate_market_buyin (s : Ship) (mTbl : MarketsTable)
    (segTbl : MarketSegmentsTable) (mName : String) : Option ℚ :=
  match getKey mTbl mName with
  | none => none
  | some row =>
    match mapMOpt
        (fun p => (s.estimate_market_segment_buyin segTbl p.1 true).map
          (fun b => p.2 * b)) row with
    | none => none
    | some terms =>
      match getKey s.markets mName with
      | none => none
      | some F_jk => some (F_jk * terms.sum)

/-- Ship.estimate_buyin: B_k starts at zero and accumulates the market buy-in
of every market recorded in the markets store, in insertion order. -/
def Ship.estimate_buyin (s : Ship) (mTbl : MarketsTable)
    (segTbl : MarketSegmentsTable) : Option ℚ :=
  s.markets.foldl
    (fun acc p => acc.bind
      (fun B => (s.estimate_market_buyin mTbl segTbl p.1).map (fun b => B + b)))
    (some 0)

/-- The quality scales each criteria value by the fixed factor 10, so the
estimate is the product of the raw values divided by 10 to the number of
criteria. -/
theorem map_div_ten_prod (l : List (String × ℚ)) :
    (l.map (fun p => p.2 / 10)).prod = (l.map Prod.snd).prod / 10 ^ l.length := by
  induction l with
  | nil => simp
  | cons p l ih =>
    simp only [List.map_cons, List.prod_cons, ih, List.length_cons, pow_succ]
    ring

/-- A product of rationals drawn from the unit interval stays in the unit
interval. -/
theorem prod_unit_interval (l : List ℚ) (h : ∀ x ∈ l, 0 ≤ x ∧ x ≤ 1) :
    0 ≤ l.prod ∧ l.prod ≤ 1 := by
  induction l with
  | nil => simp
  | cons x l ih =>
    have hx := h x (List.mem_cons_self x l)
    have hl := ih (fun y hy => h y (List.mem_cons_of_mem x hy))
    refine ⟨?_, ?_⟩
    · simpa [List.prod_cons] using mul_nonneg hx.1 hl.1
    · have : x * l.prod ≤ 1 := by nlinarith [hx.1, hx.2, hl.1, hl.2]
      simpa [List.prod_cons] using this

/-- The scenario ship of the spec: two criteria, functionality 10 and
understandability 5, with the default critical value 8. -/
def chellShip : Ship :=
  { name := "Chell"
    criteriaValues := [("functionality", 10), ("understandability", 5)]
    marketSegments := []
    markets := []
    heldConstant := []
    criticalValue := 8 }

/-- C1 counterexample: with criteria functionality 10 and understandability 5
and critical value 8, estimate_quality returns (10/10)*(5/10) = 0.5, not the
claimed (10/8)*(5/8) = 0.78125. -/
theorem C1_quality_counterexample :
    chellShip.criticalValue = 8 ∧ chellShip.estimate_quality = 1 / 2 ∧
      (1 : ℚ) / 2 ≠ 25 / 32 := by
  refine ⟨rfl, ?_, by norm_num⟩
  simp [chellShip, Ship.estimate_quality]
  norm_num

/-- C1 amended: the quality estimate is the product over the present criteria
of value / 10; the stored critical value never enters, and on the scenario
ship the result is 0.5 rather than 0.78125. -/
theorem C1_quality_formula :
    (∀ (s : Ship) (c : ℚ),
      ({ s with criticalValue := c } : Ship).estimate_quality = s.estimate_quality)
    ∧ (∀ s : Ship,
      s.estimate_quality = (s.criteriaValues.map Prod.snd).prod / 10 ^ s.criteriaValues.length)
    ∧ chellShip.estimate_quality = 1 / 2 := by
  refine ⟨fun s c => rfl, fun s => map_div_ten_prod s.criteriaValues, ?_⟩
  simp [chellShip, Ship.estimate_quality]
  norm_num

/-- A ship whose single criteria value 20 lies inside [0, critical value]
for its configured critical value 20. -/
def overShip : Ship :=
  { name := "over"
    criteriaValues := [("x", 20)]
    marketSegments := []
    markets := []
    heldConstant := []
    criticalValue := 20 }

/-- C5 counterexample: with critical value 20 and the single criteria value
20 (inside [0, critical value]), the quality estimate is 2, outside [0, 1]. -/
theorem C5_quality_range_counterexample :
    0 < overShip.criticalValue ∧
      overShip.criteriaValues = [("x", 20)] ∧
      (0 : ℚ) ≤ 20 ∧ (20 : ℚ) ≤ overShip.criticalValue ∧
      overShip.estimate_quality = 2 ∧ ¬ ((2 : ℚ) ≤ 1) := by
  refine ⟨by norm_num [overShip], rfl, by norm_num, by norm_num [overShip], ?_, by norm_num⟩
  simp [overShip, Ship.estimate_quality]
  norm_num

/-- C5 amended: whenever the configured critical value is at most 10 (the
default 8 qualifies) and every present criteria value lies in
[0, critical value], the quality estimate lies in [0, 1]. -/
theorem C5_quality_range (s : Ship) (hc : s.criticalValue ≤ 10)
    (hv : ∀ p ∈ s.criteriaValues, 0 ≤ p.2 ∧ p.2 ≤ s.criticalValue) :
    0 ≤ s.estimate_quality ∧ s.estimate_quality ≤ 1 := by
  unfold Ship.estimate_quality
  apply prod_unit_interval
  intro x hx
  rcases List.mem_map.mp hx with ⟨p, hp, rfl⟩
  have h1 := hv p hp
  constructor
  · exact div_nonneg h1.1 (by norm_num)
  · rw [div_le_one (by norm_num : (0:ℚ) < 10)]
    linarith [h1.2]

/-- Witness ship for the amended quality range claim. -/
def calmShip : Ship :=
  { name := "calm"
    criteriaValues := [("a", 4), ("b", 8)]
    marketSegments := []
    markets := []
    heldConstant := []
    criticalValue := 8 }

/-- Witness for the amended C5 theorem at a concrete ship. -/
theorem C5_quality_range_witness :
    0 ≤ calmShip.estimate_quality ∧ calmShip.estimate_quality ≤ 1 :=
  C5_quality_range calmShip (by norm_num [calmShip])
    (by
      intro p hp
      simp only [calmShip, List.mem_cons, List.not_mem_nil, or_false] at hp
      rcases hp with rfl | rfl <;> norm_num [calmShip])

/-- A key that fails to resolve matches no entry of the list. -/
theorem getKey_none_forall {α : Type} {l : List (String × α)} {k : String}
    (h : getKey l k = none) : ∀ p ∈ l, p.1 ≠ k := by
  intro p hp hpk
  unfold getKey at h
  rw [Option.map_eq_none', List.find?_eq_none] at h
  have := h p hp
  simp [hpk] at this

/-- Appending a row for a fresh name does not change lookups of other names. -/
theorem getKey_append_ne {α : Type} (l : List (String × α)) (m k : String)
    (v : α) (h : k ≠ m) : getKey (l ++ [(m, v)]) k = getKey l k := by
  unfold getKey
  rw [List.find?_append]
  cases hf : l.find? (fun p => p.1 == k) with
  | some p => simp
  | none =>
    have hmk : (m == k) = false := by simpa using (Ne.symm h)
    simp [List.find?_cons, hmk]

/-- Helper: replacing the entry of a present key puts the new pair where the
search for that key first succeeds. -/
theorem find?_map_set_self {α : Type} (k : String) (v : α) :
    ∀ l : List (String × α), (l.any fun p => p.1 == k) = true →
      List.find? (fun p => p.1 == k)
        (l.map (fun p => if p.1 == k then (k, v) else p)) = some (k, v) := by
  intro l
  induction l with
  | nil => intro h; simp at h
  | cons q l ih =>
    intro h
    rw [List.map_cons, List.find?_cons]
    by_cases hqk : (q.1 == k) = true
    · rw [if_pos hqk]
      simp
    · have hqf : (q.1 == k) = false := by simpa using hqk
      have hany : (l.any fun p => p.1 == k) = true := by
        simpa [hqf] using h
      rw [if_neg hqk]
      have hred : (q.1 == k) = false := hqf
      rw [hred]
      exact ih hany

/-- Helper: replacing the entry of one key does not disturb the search for a
different key. -/
theorem find?_map_set_ne {α : Type} (k k2 : String) (v : α) (h : k2 ≠ k) :
    ∀ l : List (String × α),
      List.find? (fun p => p.1 == k2)
        (l.map (fun p => if p.1 == k then (k, v) else p)) =
      List.find? (fun p => p.1 == k2) l := by
  intro l
  induction l with
  | nil => rfl
  | cons q l ih =>
    rw [List.map_cons, List.find?_cons, List.find?_cons]
    by_cases hqk : (q.1 == k) = true
    · have hq : q.1 = k := by simpa using hqk
      have h1 : ((k : String) == k2) = false := by simpa using (Ne.symm h)
      have h2 : (q.1 == k2) = false := by rw [hq]; exact h1
      rw [if_pos hqk]
      have hfst : (((k, v) : String × α).1 == k2) = false := h1
      rw [hfst, h2]
      exact ih
    · have hqf : (q.1 == k) = false := by simpa using hqk
      rw [if_neg hqk]
      cases hq2 : (q.1 == k2) with
      | true => rfl
      | false => exact ih

/-- Lookup immediately after assignment returns the assigned value. -/
theorem getKey_setKey_self {α : Type} (l : List (String × α)) (k : String) (v : α) :
    getKey (setKey l k v) k = some v := by
  unfold setKey
  by_cases hmem : (l.any fun p => p.1 == k) = true
  · rw [if_pos hmem]
    unfold getKey
    rw [find?_map_set_self k v l hmem]
    rfl
  · rw [if_neg hmem]
    unfold getKey
    rw [List.find?_append]
    have hf : l.find? (fun p => p.1 == k) = none := by
      rw [List.find?_eq_none]
      intro p hp hc
      exact hmem (List.any_eq_true.mpr ⟨p, hp, hc⟩)
    rw [hf]
    simp [List.find?_cons]

/-- Lookup after assigning a different key is unchanged. -/
theorem getKey_setKey_ne {α : Type} (l : List (String × α)) (k k2 : String)
    (v : α) (h : k2 ≠ k) : getKey (setKey l k v) k2 = getKey l k2 := by
  unfold setKey
  by_cases hmem : (l.any fun p => p.1 == k) = true
  · rw [if_pos hmem]
    unfold getKey
    rw [find?_map_set_ne k k2 v h l]
  · rw [if_neg hmem]
    exact getKey_append_ne l k k2 v h

/-- Lookup of a deleted key fails. -/
theorem getKey_delKey_self {α : Type} (l : List (String × α)) (k : String) :
    getKey (delKey l k) k = none := by
  unfold getKey delKey
  rw [Option.map_eq_none', List.find?_eq_none]
  intro p hp
  have hne := (List.mem_filter.mp hp).2
  simp only [Bool.not_eq_eq_eq_not, Bool.not_true] at hne
  simp [hne]

/-- Deleting one key leaves lookups of other keys unchanged. -/
theorem getKey_delKey_ne {α : Type} (l : List (String × α)) (k k2 : String)
    (h : k2 ≠ k) : getKey (delKey l k) k2 = getKey l k2 := by
  unfold getKey delKey
  congr 1
  induction l with
  | nil => rfl
  | cons q l ih =>
    by_cases hqk : (q.1 == k) = true
    · have hq : q.1 = k := by simpa using hqk
      have h2 : (q.1 == k2) = false := by rw [hq]; simpa using (Ne.symm h)
      simp [List.filter_cons, hqk, List.find?_cons, h2, ih]
    · have hqf : (q.1 == k) = false := by simpa using hqk
      simp only [List.filter_cons, hqf, Bool.not_false, if_true]
      rw [List.find?_cons, List.find?_cons]
      cases hq2 : (q.1 == k2) <;> simp [ih]

/-- Unfolding equation of mapMOpt on the empty list. -/
theorem mapMOpt_nil {α β : Type} (f : α → Option β) : mapMOpt f [] = some [] := rfl

/-- Unfolding equation of mapMOpt on a cons cell. -/
theorem mapMOpt_cons {α β : Type} (f : α → Option β) (a : α) (as : List α) :
    mapMOpt f (a :: as) =
      match f a, mapMOpt f as with
      | some b, some bs => some (b :: bs)
      | _, _ => none := rfl

/-- If two Option-valued functions agree on a list, mapping either over the
list gives the same result. -/
theorem mapMOpt_congr {α β : Type} {f g : α → Option β} {l : List α}
    (h : ∀ a ∈ l, f a = g a) : mapMOpt f l = mapMOpt g l := by
  induction l with
  | nil => rfl
  | cons a l ih =>
    unfold mapMOpt
    rw [h a (List.mem_cons_self a l), ih (fun b hb => h b (List.mem_cons_of_mem a hb))]

/-- Every element produced by a successful mapMOpt run comes from applying the
function to some element of the input list. -/
theorem mapMOpt_mem {α β : Type} {f : α → Option β} :
    ∀ {l : List α} {bs : List β}, mapMOpt f l = some bs →
      ∀ b ∈ bs, ∃ a ∈ l, f a = some b := by
  intro l
  induction l with
  | nil =>
    intro bs h b hb
    unfold mapMOpt at h
    cases h
    simp at hb
  | cons a l ih =>
    intro bs h b hb
    unfold mapMOpt at h
    cases hfa : f a with
    | none => rw [hfa] at h; simp at h
    | some b0 =>
      rw [hfa] at h
      cases hrest : mapMOpt f l with
      | none => rw [hrest] at h; simp at h
      | some bs0 =>
        rw [hrest] at h
        cases h
        rcases List.mem_cons.mp hb with rfl | hbs
        · exact ⟨a, List.mem_cons_self a l, hfa⟩
        · rcases ih hrest b hbs with ⟨a2, ha2, hfa2⟩
          exact ⟨a2, List.mem_cons_of_mem a ha2, hfa2⟩

/-- The accumulating loop of estimate_buyin equals mapping market buy-in over
the recorded markets and summing. -/
theorem estimate_buyin_eq_sum (s : Ship) (mTbl : MarketsTable)
    (segTbl : MarketSegmentsTable) :
    s.estimate_buyin mTbl segTbl =
      (mapMOpt (fun p => s.estimate_market_buyin mTbl segTbl p.1) s.markets).map
        List.sum := by
  have hnone : ∀ (l2 : List (String × ℚ)),
      l2.foldl
        (fun acc p => acc.bind
          (fun B => (s.estimate_market_buyin mTbl segTbl p.1).map (fun b => B + b)))
        none = none := by
    intro l2
    induction l2 with
    | nil => rfl
    | cons q l2 ih2 => simpa using ih2
  have key : ∀ (l : List (String × ℚ)) (a : ℚ),
      l.foldl
        (fun acc p => acc.bind
          (fun B => (s.estimate_market_buyin mTbl segTbl p.1).map (fun b => B + b)))
        (some a)
      = (mapMOpt (fun p => s.estimate_market_buyin mTbl segTbl p.1) l).map
          (fun bs => a + bs.sum) := by
    intro l
    induction l with
    | nil => intro a; simp [mapMOpt]
    | cons p l ih =>
      intro a
      cases hfp : s.estimate_market_buyin mTbl segTbl p.1 with
      | none =>
        simp only [List.foldl_cons, Option.some_bind, hfp, Option.map_none']
        rw [hnone, mapMOpt_cons, hfp]
        simp
      | some b =>
        simp only [List.foldl_cons, Option.some_bind, hfp, Option.map_some']
        rw [ih (a + b), mapMOpt_cons, hfp]
        cases hrest : mapMOpt (fun p => s.estimate_market_buyin mTbl segTbl p.1) l with
        | none => simp
        | some bs =>
          simp only [Option.map_some', Option.some.injEq, List.sum_cons]
          ring
  unfold Ship.estimate_buyin
  rw [key]
  cases mapMOpt (fun p => s.estimate_market_buyin mTbl segTbl p.1) s.markets with
  | none => simp
  | some bs => simp

/-- C2: total buy-in is the sum of market buy-in over exactly the markets
with a recorded market-compatibility entry, and appending to the reference
table a market that was never sent to leaves the total unchanged. -/
theorem C2_total_buyin (s : Ship) (mTbl : MarketsTable)
    (segTbl : MarketSegmentsTable) (m2 : String) (row : MarketRow)
    (hunsent : getKey s.markets m2 = none) :
    s.estimate_buyin mTbl segTbl =
      (mapMOpt (fun p => s.estimate_market_buyin mTbl segTbl p.1) s.markets).map
        List.sum
    ∧ s.estimate_buyin (mTbl ++ [(m2, row)]) segTbl = s.estimate_buyin mTbl segTbl := by
  refine ⟨estimate_buyin_eq_sum s mTbl segTbl, ?_⟩
  rw [estimate_buyin_eq_sum, estimate_buyin_eq_sum]
  have hmb : ∀ p ∈ s.markets,
      s.estimate_market_buyin (mTbl ++ [(m2, row)]) segTbl p.1 =
        s.estimate_market_buyin mTbl segTbl p.1 := by
    intro p hp
    have hne : p.1 ≠ m2 := getKey_none_forall hunsent p hp
    unfold Ship.estimate_market_buyin
    rw [getKey_append_ne mTbl m2 p.1 row hne]
  rw [mapMOpt_congr hmb]

/-- Concrete segment reference data used by several witnesses. -/
def segTblW : MarketSegmentsTable := [("friends", ⟨2, 9/10⟩)]

/-- A one-market reference table used by several witnesses. -/
def mTblW : MarketsTable := [("arXiv", [("friends", 3)])]

/-- A ship with one recorded market, used by several witnesses. -/
def sailShip : Ship :=
  { name := "sail"
    criteriaValues := [("a", 5)]
    marketSegments := [("friends", 1/2)]
    markets := [("arXiv", 3/4)]
    heldConstant := []
    criticalValue := 8 }

/-- Witness for C2: a concrete unsent market appended to the table leaves the
concrete total buy-in unchanged. -/
theorem C2_total_buyin_witness :
    sailShip.estimate_buyin mTblW segTblW =
      (mapMOpt (fun p => sailShip.estimate_market_buyin mTblW segTblW p.1)
        sailShip.markets).map List.sum
    ∧ sailShip.estimate_buyin (mTblW ++ [("cats", [("friends", 7)])]) segTblW =
        sailShip.estimate_buyin mTblW segTblW :=
  C2_total_buyin sailShip mTblW segTblW "cats" [("friends", 7)]
    (by simp [sailShip, getKey, List.find?])

/-- Segment reference table holding a default compatibility for friends. -/
def segTblDefault : MarketSegmentsTable := [("friends", ⟨1, 9/10⟩)]

/-- A ship that was never evaluated against any market segment. -/
def bareShip : Ship :=
  { name := "bare"
    criteriaValues := [("functionality", 10)]
    marketSegments := []
    markets := []
    heldConstant := []
    criticalValue := 8 }

/-- C4: the use-default flag of estimate_market_segment_buyin is dead code:
the result never depends on it, and when the ship has no recorded segment
compatibility the call fails (KeyError) even though the segment row holds a
default compatibility and the flag asks for it; no MissingCompatibilityError
distinct from the generic failure exists. -/
theorem C4_use_default_flag_dead :
    (∀ (s : Ship) (segTbl : MarketSegmentsTable) (ms : String) (b1 b2 : Bool),
      s.estimate_market_segment_buyin segTbl ms b1 =
        s.estimate_market_segment_buyin segTbl ms b2)
    ∧ getKey segTblDefault "friends" = some ⟨1, 9/10⟩
    ∧ getKey bareShip.marketSegments "friends" = none
    ∧ bareShip.estimate_market_segment_buyin segTblDefault "friends" true = none
    ∧ bareShip.estimate_market_segment_buyin segTblDefault "friends" false = none :=
  ⟨fun s segTbl ms b1 b2 => rfl, rfl, rfl, rfl, rfl⟩

/-- The long-form variable kinds that can appear in the derivative landscape. -/
def MODIFIABLE_VARIABLES : List String :=
  ["criteria values", "markets", "market segments"]

/-- The shorthand mapping at the top of Ship.estimate_buyin_change: every
accepted spelling is rewritten to the long form before anything else. -/
def normalizeVariable (kind : String) : String :=
  if kind = "quality" ∨ kind = "q" ∨ kind = "q_k" then "quality"
  else if kind = "criteria values" ∨ kind = "c" ∨ kind = "c_m" then "criteria values"
  else if kind = "markets" ∨ kind = "F" ∨ kind = "F_jk" then "markets"
  else if kind = "market segments" ∨ kind = "f" ∨ kind = "f_ik" then "market segments"
  else kind

/-- The held-constant membership test: [variable, name] in the held list.
A quality query passes name = none, which never matches a stored pair. -/
def heldMatches (held : List (String × String)) (kind : String)
    (name : Option String) : Bool :=
  match name with
  | some n => decide ((kind, n) ∈ held)
  | none => false

/-- np.isclose(x, 0): absolute tolerance 10^-8 (the relative part contributes
nothing against zero). -/
def isClose0 (x : ℚ) : Bool := decide (|x| ≤ 1 / 100000000)

/-- The quality branch of estimate_buyin_change: dB = B_k / q_k, times
(1 - q_k) under the diminishing-returns transform. -/
def Ship.buyinChangeQuality (s : Ship) (mTbl : MarketsTable)
    (segTbl : MarketSegmentsTable) (dt : Bool) : Option ℚ :=
  match s.estimate_buyin mTbl segTbl with
  | none => none
  | some B_k =>
    some (if dt then B_k / s.estimate_quality * (1 - s.estimate_quality)
      else B_k / s.estimate_quality)

/-- The criteria-values branch: dB = B_k / c_m with c_m the stored value over
10, zero when both B_k and c_m are close to zero, times (1 - c_m) under the
transform. -/
def Ship.buyinChangeCriteria (s : Ship) (mTbl : MarketsTable)
    (segTbl : MarketSegmentsTable) (n : String) (dt : Bool) : Option ℚ :=
  match s.estimate_buyin mTbl segTbl with
  | none => none
  | some B_k =>
    match getKey s.criteriaValues n with
    | none => none
    | some c =>
      if isClose0 B_k && isClose0 (c / 10) then some 0
      else
        some (if dt then B_k / (c / 10) * (1 - c / 10) else B_k / (c / 10))

/-- The markets branch: dB = sum over the market row of n_ij * B_ik, with no
market-compatibility factor; the transform multiplies by (1 - F_jk), which
reads the markets store and so can raise. -/
def Ship.buyinChangeMarkets (s : Ship) (mTbl : MarketsTable)
    (segTbl : MarketSegmentsTable) (n : String) (dt : Bool) : Option ℚ :=
  match getKey mTbl n with
  | none => none
  | some row =>
    match mapMOpt
        (fun p => (s.estimate_market_segment_buyin segTbl p.1 true).map
          (fun b => p.2 * b)) row with
    | none => none
    | some terms =>
      if dt then
        match getKey s.markets n with
        | none => none
        | some F_jk => some (terms.sum * (1 - F_jk))
      else some terms.sum

/-- The market-segments branch: dB = q_k * b_i * sum over recorded markets of
F_jk * n_ij; the transform multiplies by (1 - f_ik) from the segments store. -/
def Ship.buyinChangeSegments (s : Ship) (mTbl : MarketsTable)
    (segTbl : MarketSegmentsTable) (n : String) (dt : Bool) : Option ℚ :=
  match getKey segTbl n with
  | none => none
  | some seg =>
    match mapMOpt
        (fun p => (getKey mTbl p.1).bind
          (fun row => (getKey row n).map (fun nij => p.2 * nij))) s.markets with
    | none => none
    | some terms =>
      if dt then
        match getKey s.marketSegments n with
        | none => none
        | some f_ik => some (s.estimate_quality * seg.weight * terms.sum * (1 - f_ik))
      else some (s.estimate_quality * seg.weight * terms.sum)

/-- The body of Ship.estimate_buyin_change after the shorthand rewrite: the
held-constant check short-circuits to 0, then the four variable kinds are
dispatched; an unrecognized kind raises KeyError. -/
def Ship.buyinChangeNormalized (s : Ship) (mTbl : MarketsTable)
    (segTbl : MarketSegmentsTable) (kind : String) (name : Option String)
    (dt : Bool) : Option ℚ :=
  if heldMatches s.heldConstant kind name then some 0
  else if kind = "quality" then s.buyinChangeQuality mTbl segTbl dt
  else if kind = "criteria values" then
    match name with
    | none => none
    | some n => s.buyinChangeCriteria mTbl segTbl n dt
  else if kind = "markets" then
    match name with
    | none => none
    | some n => s.buyinChangeMarkets mTbl segTbl n dt
  else if kind = "market segments" then
    match name with
    | none => none
    | some n => s.buyinChangeSegments mTbl segTbl n dt
  else none

/-- Ship.estimate_buyin_change: rewrite the kind through the shorthand table,
then dispatch. -/
def Ship.estimate_buyin_change (s : Ship) (mTbl : MarketsTable)
    (segTbl : MarketSegmentsTable) (kind : String) (name : Option String)
    (dt : Bool) : Option ℚ :=
  s.buyinChangeNormalized mTbl segTbl (normalizeVariable kind) name dt

/-- The derivative landscape: the quality derivative plus one entry for every
key of each of the three per-ship stores. -/
structure ChangeLandscape where
  quality : ℚ
  criteriaValues : List (String × ℚ)
  markets : List (String × ℚ)
  marketSegments : List (String × ℚ)
deriving DecidableEq, Repr

/-- Ship.estimate_buyin_change_landscape: derivative of every currently
present criteria value, recorded market, and recorded market segment, with
the quality derivative computed once. -/
def Ship.estimate_buyin_change_landscape (s : Ship) (mTbl : MarketsTable)
    (segTbl : MarketSegmentsTable) (dt : Bool) : Option ChangeLandscape :=
  match s.estimate_buyin_change mTbl segTbl "q" none dt with
  | none => none
  | some q =>
    match
      mapMOpt (fun p => (s.estimate_buyin_change mTbl segTbl "criteria values"
        (some p.1) dt).map (fun x => (p.1, x))) s.criteriaValues,
      mapMOpt (fun p => (s.estimate_buyin_change mTbl segTbl "markets"
        (some p.1) dt).map (fun x => (p.1, x))) s.markets,
      mapMOpt (fun p => (s.estimate_buyin_change mTbl segTbl "market segments"
        (some p.1) dt).map (fun x => (p.1, x))) s.marketSegments with
    | some cs, some ms, some mss => some ⟨q, cs, ms, mss⟩
    | _, _, _ => none

/-- Modelled from the spec: verdict.Dict.keymax, the argmax helper of the
external ordered-dictionary collaborator (its source is not part of this
repository).  The spec prescribes a stable maximum over insertion order with
first-seen-wins tie breaking. -/
def keymax {α : Type} : List (α × ℚ) → Option (α × ℚ)
  | [] => none
  | p :: rest =>
    match keymax rest with
    | none => some p
    | some q => if q.2 > p.2 then some q else some p

/-- Result type of Ship.estimate_buyin_change_max: either the sentinel pair
("not enough info", 0.0) or ((kind, name), value). -/
inductive MaxResult where
  | notEnoughInfo : MaxResult
  | found : String → String → ℚ → MaxResult
deriving DecidableEq, Repr

/-- Ship.estimate_buyin_change_max: per-kind argmax over the landscape of the
three iterable kinds (empty kinds skipped), then the argmax across kinds;
the sentinel is returned when every kind is empty. -/
def Ship.estimate_buyin_change_max (s : Ship) (mTbl : MarketsTable)
    (segTbl : MarketSegmentsTable) (dt : Bool) : Option MaxResult :=
  match s.estimate_buyin_change_landscape mTbl segTbl dt with
  | none => none
  | some dbl =>
    match keymax
        (([("criteria values", dbl.criteriaValues), ("markets", dbl.markets),
          ("market segments", dbl.marketSegments)]).filterMap
          (fun e => (keymax e.2).map (fun p => ((e.1, p.1), p.2)))) with
    | none => some MaxResult.notEnoughInfo
    | some (k, v) => some (MaxResult.found k.1 k.2 v)

/-- Unfolding equation of keymax when the tail has no maximum. -/
theorem keymax_cons_none {α : Type} {l : List (α × ℚ)} (q : α × ℚ)
    (hq : keymax l = none) : keymax (q :: l) = some q := by
  unfold keymax
  rw [hq]

/-- Unfolding equation of keymax when the tail has a maximum. -/
theorem keymax_cons_some {α : Type} {l : List (α × ℚ)} (q r : α × ℚ)
    (hq : keymax l = some r) :
    keymax (q :: l) = if r.2 > q.2 then some r else some q := by
  unfold keymax
  rw [hq]

/-- The pair returned by keymax is an entry of the searched list. -/
theorem keymax_mem {α : Type} :
    ∀ {l : List (α × ℚ)} {p : α × ℚ}, keymax l = some p → p ∈ l := by
  intro l
  induction l with
  | nil => intro p h; cases h
  | cons q l ih =>
    intro p h
    cases hq : keymax l with
    | none =>
      rw [keymax_cons_none q hq] at h
      cases h
      exact List.mem_cons_self q l
    | some r =>
      rw [keymax_cons_some q r hq] at h
      by_cases hc : r.2 > q.2
      · rw [if_pos hc] at h
        cases h
        exact List.mem_cons_of_mem q (ih hq)
      · rw [if_neg hc] at h
        cases h
        exact List.mem_cons_self q l

/-- Every entry of a computed derivative landscape records the value of the
corresponding estimate_buyin_change call. -/
theorem landscape_entries (s : Ship) (mTbl : MarketsTable)
    (segTbl : MarketSegmentsTable) (dt : Bool) (dbl : ChangeLandscape)
    (h : s.estimate_buyin_change_landscape mTbl segTbl dt = some dbl) :
    (∀ p ∈ dbl.criteriaValues,
      s.estimate_buyin_change mTbl segTbl "criteria values" (some p.1) dt = some p.2)
    ∧ (∀ p ∈ dbl.markets,
      s.estimate_buyin_change mTbl segTbl "markets" (some p.1) dt = some p.2)
    ∧ (∀ p ∈ dbl.marketSegments,
      s.estimate_buyin_change mTbl segTbl "market segments" (some p.1) dt = some p.2) := by
  unfold Ship.estimate_buyin_change_landscape at h
  cases hq : s.estimate_buyin_change mTbl segTbl "q" none dt with
  | none => rw [hq] at h; cases h
  | some q =>
    rw [hq] at h
    cases hcs : mapMOpt (fun p => (s.estimate_buyin_change mTbl segTbl
        "criteria values" (some p.1) dt).map (fun x => (p.1, x))) s.criteriaValues with
    | none => rw [hcs] at h; cases h
    | some cs =>
      rw [hcs] at h
      cases hms : mapMOpt (fun p => (s.estimate_buyin_change mTbl segTbl
          "markets" (some p.1) dt).map (fun x => (p.1, x))) s.markets with
      | none => rw [hms] at h; cases h
      | some ms =>
        rw [hms] at h
        cases hmss : mapMOpt (fun p => (s.estimate_buyin_change mTbl segTbl
            "market segments" (some p.1) dt).map (fun x => (p.1, x))) s.marketSegments with
        | none => rw [hmss] at h; cases h
        | some mss =>
          rw [hmss] at h
          have h2 : (⟨q, cs, ms, mss⟩ : ChangeLandscape) = dbl := Option.some.inj h
          subst h2
          refine ⟨?_, ?_, ?_⟩
          · intro p hp
            rcases mapMOpt_mem hcs p hp with ⟨a, _, hfa⟩
            rcases Option.map_eq_some'.mp hfa with ⟨x, hx1, hx2⟩
            rw [← hx2]
            exact hx1
          · intro p hp
            rcases mapMOpt_mem hms p hp with ⟨a, _, hfa⟩
            rcases Option.map_eq_some'.mp hfa with ⟨x, hx1, hx2⟩
            rw [← hx2]
            exact hx1
          · intro p hp
            rcases mapMOpt_mem hmss p hp with ⟨a, _, hfa⟩
            rcases Option.map_eq_some'.mp hfa with ⟨x, hx1, hx2⟩
            rw [← hx2]
            exact hx1

/-- A ship whose single criteria value is held constant and that has no
recorded markets or market segments. -/
def heldImShip : Ship :=
  { name := "held"
    criteriaValues := [("x", 5)]
    marketSegments := []
    markets := []
    heldConstant := [("criteria values", "x")]
    criticalValue := 8 }

/-- C3 counterexample: a held-constant pair is not excluded from the argmax
search: on a ship whose only iterable variable is held constant,
estimate_buyin_change_max returns that very pair (with value 0) instead of
skipping it. -/
theorem C3_held_argmax_counterexample :
    ("criteria values", "x") ∈ heldImShip.heldConstant
    ∧ heldImShip.estimate_buyin_change_max [] [] false =
        some (MaxResult.found "criteria values" "x" 0) := by
  exact ⟨List.mem_cons_self _ _, rfl⟩

/-- C3 amended: a held-constant pair (with its kind in canonical long form)
always gets derivative exactly 0 from estimate_buyin_change, with or without
the diminishing-returns transform; it still participates in the argmax search
of estimate_buyin_change_max with value 0, so it can be returned, but only
when the reported maximum value is 0. -/
theorem C3_held_variable :
    (∀ (s : Ship) (mTbl : MarketsTable) (segTbl : MarketSegmentsTable)
      (kind n : String) (dt : Bool),
      normalizeVariable kind = kind → (kind, n) ∈ s.heldConstant →
      s.estimate_buyin_change mTbl segTbl kind (some n) dt = some 0)
    ∧ (∀ (s : Ship) (mTbl : MarketsTable) (segTbl : MarketSegmentsTable)
      (dt : Bool) (k n : String) (v : ℚ),
      s.estimate_buyin_change_max mTbl segTbl dt = some (MaxResult.found k n v) →
      (k, n) ∈ s.heldConstant → v = 0) := by
  have hzero : ∀ (s : Ship) (mTbl : MarketsTable) (segTbl : MarketSegmentsTable)
      (kind n : String) (dt : Bool),
      normalizeVariable kind = kind → (kind, n) ∈ s.heldConstant →
      s.estimate_buyin_change mTbl segTbl kind (some n) dt = some 0 := by
    intro s mTbl segTbl kind n dt hnorm hheld
    unfold Ship.estimate_buyin_change
    rw [hnorm]
    unfold Ship.buyinChangeNormalized
    have hm : heldMatches s.heldConstant kind (some n) = true := by
      unfold heldMatches
      exact decide_eq_true hheld
    rw [hm]
    rfl
  refine ⟨hzero, ?_⟩
  intro s mTbl segTbl dt k n v hmax hheld
  unfold Ship.estimate_buyin_change_max at hmax
  cases hl : s.estimate_buyin_change_landscape mTbl segTbl dt with
  | none => rw [hl] at hmax; cases hmax
  | some dbl =>
    rw [hl] at hmax
    replace hmax : (match keymax
        (([("criteria values", dbl.criteriaValues), ("markets", dbl.markets),
          ("market segments", dbl.marketSegments)]).filterMap
          (fun e => (keymax e.2).map (fun p => ((e.1, p.1), p.2)))) with
      | none => some MaxResult.notEnoughInfo
      | some (k, v) => some (MaxResult.found k.1 k.2 v)) =
        some (MaxResult.found k n v) := hmax
    cases hk : keymax
        (([("criteria values", dbl.criteriaValues), ("markets", dbl.markets),
          ("market segments", dbl.marketSegments)]).filterMap
          (fun e => (keymax e.2).map (fun p => ((e.1, p.1), p.2)))) with
    | none =>
      rw [hk] at hmax
      exact MaxResult.noConfusion (Option.some.inj hmax)
    | some kv =>
      rw [hk] at hmax
      obtain ⟨⟨k0, n0⟩, v0⟩ := kv
      have h3 : MaxResult.found k0 n0 v0 = MaxResult.found k n v :=
        Option.some.inj hmax
      injection h3 with e1 e2 e3
      subst e1
      subst e2
      subst e3
      have hmem := keymax_mem hk
      rw [List.mem_filterMap] at hmem
      obtain ⟨e, he, hpe⟩ := hmem
      have hland := landscape_entries s mTbl segTbl dt dbl hl
      simp only [List.mem_cons, List.not_mem_nil, or_false] at he
      rcases he with rfl | rfl | rfl
      · cases hkm : keymax dbl.criteriaValues with
        | none => rw [hkm] at hpe; cases hpe
        | some p2 =>
          rw [hkm] at hpe
          have h4 := (Option.some.inj hpe).symm
          rw [Prod.mk.injEq, Prod.mk.injEq] at h4
          obtain ⟨⟨hk1, hn1⟩, hv1⟩ := h4
          subst hk1
          subst hn1
          subst hv1
          have hch := hland.1 p2 (keymax_mem hkm)
          have h0 := hzero s mTbl segTbl "criteria values" p2.1 dt (by decide) hheld
          rw [hch] at h0
          exact Option.some.inj h0
      · cases hkm : keymax dbl.markets with
        | none => rw [hkm] at hpe; cases hpe
        | some p2 =>
          rw [hkm] at hpe
          have h4 := (Option.some.inj hpe).symm
          rw [Prod.mk.injEq, Prod.mk.injEq] at h4
          obtain ⟨⟨hk1, hn1⟩, hv1⟩ := h4
          subst hk1
          subst hn1
          subst hv1
          have hch := hland.2.1 p2 (keymax_mem hkm)
          have h0 := hzero s mTbl segTbl "markets" p2.1 dt (by decide) hheld
          rw [hch] at h0
          exact Option.some.inj h0
      · cases hkm : keymax dbl.marketSegments with
        | none => rw [hkm] at hpe; cases hpe
        | some p2 =>
          rw [hkm] at hpe
          have h4 := (Option.some.inj hpe).symm
          rw [Prod.mk.injEq, Prod.mk.injEq] at h4
          obtain ⟨⟨hk1, hn1⟩, hv1⟩ := h4
          subst hk1
          subst hn1
          subst hv1
          have hch := hland.2.2 p2 (keymax_mem hkm)
          have h0 := hzero s mTbl segTbl "market segments" p2.1 dt (by decide) hheld
          rw [hch] at h0
          exact Option.some.inj h0

/-- Witness for the amended C3 theorem: the held pair of the counterexample
ship gets derivative exactly 0. -/
theorem C3_held_variable_witness :
    heldImShip.estimate_buyin_change [] [] "criteria values" (some "x") false = some 0 :=
  C3_held_variable.1 heldImShip [] [] "criteria values" "x" false (by decide)
    (List.mem_cons_self _ _)

/-- C6: for any market of the reference table, even one with no recorded
market-compatibility entry, the derivative with respect to market
compatibility (no transform) is the plain sum over the row of n_ij * B_ik;
no F_jk factor is applied, and for a recorded market the market buy-in is
exactly F_jk times this derivative. -/
theorem C6_market_derivative (s : Ship) (mTbl : MarketsTable)
    (segTbl : MarketSegmentsTable) (j : String) (row : MarketRow) (terms : List ℚ)
    (hheld : ("markets", j) ∉ s.heldConstant)
    (hrow : getKey mTbl j = some row)
    (hterms : mapMOpt (fun p => (s.estimate_market_segment_buyin segTbl p.1 true).map
      (fun b => p.2 * b)) row = some terms) :
    s.estimate_buyin_change mTbl segTbl "markets" (some j) false = some terms.sum
    ∧ ∀ F, getKey s.markets j = some F →
        s.estimate_market_buyin mTbl segTbl j = some (F * terms.sum) := by
  constructor
  · unfold Ship.estimate_buyin_change
    rw [show normalizeVariable "markets" = "markets" from rfl]
    unfold Ship.buyinChangeNormalized
    have hm : heldMatches s.heldConstant "markets" (some j) = false := by
      unfold heldMatches
      exact decide_eq_false hheld
    rw [hm]
    rw [if_neg Bool.false_ne_true]
    rw [if_neg (by decide : ¬("markets" = "quality"))]
    rw [if_neg (by decide : ¬("markets" = "criteria values"))]
    rw [if_pos rfl]
    show s.buyinChangeMarkets mTbl segTbl j false = some terms.sum
    unfold Ship.buyinChangeMarkets
    rw [hrow]
    show (match mapMOpt (fun p => (s.estimate_market_segment_buyin segTbl p.1 true).map
        (fun b => p.2 * b)) row with
      | none => none
      | some terms2 =>
        if false = true then
          match getKey s.markets j with
          | none => none
          | some F_jk => some (terms2.sum * (1 - F_jk))
        else some terms2.sum) = some terms.sum
    rw [hterms]
    exact rfl
  · intro F hF
    unfold Ship.estimate_market_buyin
    rw [hrow]
    show (match mapMOpt (fun p => (s.estimate_market_segment_buyin segTbl p.1 true).map
        (fun b => p.2 * b)) row with
      | none => none
      | some terms2 =>
        match getKey s.markets j with
        | none => none
        | some F_jk => some (F_jk * terms2.sum)) = some (F * terms.sum)
    rw [hterms]
    show (match getKey s.markets j with
      | none => none
      | some F_jk => some (F_jk * terms.sum)) = some (F * terms.sum)
    rw [hF]

/-- Reference tables and ship for the C6 witness: the market m1 appears in
the table but the ship has no recorded compatibility for it. -/
def mTbl6 : MarketsTable := [("m1", [("seg1", 2)])]

/-- Segment table for the C6 witness. -/
def segTbl6 : MarketSegmentsTable := [("seg1", ⟨3, 1/2⟩)]

/-- Ship for the C6 witness: one perfect criterion, one evaluated segment,
no recorded markets. -/
def unsentShip : Ship :=
  { name := "unsent"
    criteriaValues := [("a", 10)]
    marketSegments := [("seg1", 1/2)]
    markets := []
    heldConstant := []
    criticalValue := 8 }

/-- Witness for C6 at concrete data: the derivative of the never-sent market
m1 is computed from the table row with no compatibility factor. -/
theorem C6_market_derivative_witness :
    unsentShip.estimate_buyin_change mTbl6 segTbl6 "markets" (some "m1") false =
      some ([(2 : ℚ) * (unsentShip.estimate_quality * 3 * (1/2))]).sum :=
  (C6_market_derivative unsentShip mTbl6 segTbl6 "m1" [("seg1", 2)]
    [(2 : ℚ) * (unsentShip.estimate_quality * 3 * (1/2))]
    (by decide) rfl rfl).1

/-- The current normalized value X of a variable, in the words of the spec:
q_k for quality, the criterion value over 10 for a criterion, F_jk for a
market, f_ik for a market segment. -/
def Ship.currentNormalizedValue (s : Ship) (kind : String) (name : Option String) :
    Option ℚ :=
  if normalizeVariable kind = "quality" then some s.estimate_quality
  else if normalizeVariable kind = "criteria values" then
    name.bind (fun n => (getKey s.criteriaValues n).map (fun c => c / 10))
  else if normalizeVariable kind = "markets" then
    name.bind (fun n => getKey s.markets n)
  else if normalizeVariable kind = "market segments" then
    name.bind (fun n => getKey s.marketSegments n)
  else none

/-- The quality branch with the transform equals the raw branch times
(1 - q_k). -/
theorem buyinChangeQuality_dt (s : Ship) (mTbl : MarketsTable)
    (segTbl : MarketSegmentsTable) (r : ℚ)
    (h : s.buyinChangeQuality mTbl segTbl false = some r) :
    s.buyinChangeQuality mTbl segTbl true = some (r * (1 - s.estimate_quality)) := by
  unfold Ship.buyinChangeQuality at h ⊢
  cases hb : s.estimate_buyin mTbl segTbl with
  | none => rw [hb] at h; exact Option.noConfusion h
  | some B =>
    rw [hb] at h
    replace h : B / s.estimate_quality = r := Option.some.inj h
    show some (B / s.estimate_quality * (1 - s.estimate_quality)) =
      some (r * (1 - s.estimate_quality))
    rw [h]

/-- The criteria branch with the transform equals the raw branch times
(1 - c/10). -/
theorem buyinChangeCriteria_dt (s : Ship) (mTbl : MarketsTable)
    (segTbl : MarketSegmentsTable) (n : String) (r c : ℚ)
    (h : s.buyinChangeCriteria mTbl segTbl n false = some r)
    (hc : getKey s.criteriaValues n = some c) :
    s.buyinChangeCriteria mTbl segTbl n true = some (r * (1 - c / 10)) := by
  unfold Ship.buyinChangeCriteria at h ⊢
  cases hb : s.estimate_buyin mTbl segTbl with
  | none => rw [hb] at h; exact Option.noConfusion h
  | some B =>
    rw [hb, hc] at h
    rw [hc]
    replace h : (if (isClose0 B && isClose0 (c / 10)) = true then some (0 : ℚ)
        else some (B / (c / 10))) = some r := h
    show (if (isClose0 B && isClose0 (c / 10)) = true then some (0 : ℚ)
        else some (B / (c / 10) * (1 - c / 10))) = some (r * (1 - c / 10))
    by_cases hg : (isClose0 B && isClose0 (c / 10)) = true
    · rw [if_pos hg] at h ⊢
      replace h : (0 : ℚ) = r := Option.some.inj h
      rw [← h]
      norm_num
    · rw [if_neg hg] at h ⊢
      replace h : B / (c / 10) = r := Option.some.inj h
      rw [h]

/-- The markets branch with the transform equals the raw branch times
(1 - F_jk). -/
theorem buyinChangeMarkets_dt (s : Ship) (mTbl : MarketsTable)
    (segTbl : MarketSegmentsTable) (n : String) (r F : ℚ)
    (h : s.buyinChangeMarkets mTbl segTbl n false = some r)
    (hF : getKey s.markets n = some F) :
    s.buyinChangeMarkets mTbl segTbl n true = some (r * (1 - F)) := by
  unfold Ship.buyinChangeMarkets at h ⊢
  cases hrow : getKey mTbl n with
  | none => rw [hrow] at h; exact Option.noConfusion h
  | some row =>
    rw [hrow] at h
    replace h : (match mapMOpt (fun p => (s.estimate_market_segment_buyin segTbl p.1 true).map
        (fun b => p.2 * b)) row with
      | none => none
      | some terms =>
        if false = true then
          match getKey s.markets n with
          | none => none
          | some F_jk => some (terms.sum * (1 - F_jk))
        else some terms.sum) = some r := h
    cases ht : mapMOpt (fun p => (s.estimate_market_segment_buyin segTbl p.1 true).map
        (fun b => p.2 * b)) row with
    | none => rw [ht] at h; exact Option.noConfusion h
    | some terms =>
      rw [ht] at h
      replace h : terms.sum = r := Option.some.inj h
      show (match mapMOpt (fun p => (s.estimate_market_segment_buyin segTbl p.1 true).map
          (fun b => p.2 * b)) row with
        | none => none
        | some terms2 =>
          if true = true then
            match getKey s.markets n with
            | none => none
            | some F_jk => some (terms2.sum * (1 - F_jk))
          else some terms2.sum) = some (r * (1 - F))
      rw [ht]
      show (match getKey s.markets n with
        | none => none
        | some F_jk => some (terms.sum * (1 - F_jk))) = some (r * (1 - F))
      rw [hF, h]

/-- The market-segments branch with the transform equals the raw branch times
(1 - f_ik). -/
theorem buyinChangeSegments_dt (s : Ship) (mTbl : MarketsTable)
    (segTbl : MarketSegmentsTable) (n : String) (r f : ℚ)
    (h : s.buyinChangeSegments mTbl segTbl n false = some r)
    (hf : getKey s.marketSegments n = some f) :
    s.buyinChangeSegments mTbl segTbl n true = some (r * (1 - f)) := by
  unfold Ship.buyinChangeSegments at h ⊢
  cases hseg : getKey segTbl n with
  | none => rw [hseg] at h; exact Option.noConfusion h
  | some seg =>
    rw [hseg] at h
    replace h : (match mapMOpt (fun p => (getKey mTbl p.1).bind
        (fun row => (getKey row n).map (fun nij => p.2 * nij))) s.markets with
      | none => none
      | some terms =>
        if false = true then
          match getKey s.marketSegments n with
          | none => none
          | some f_ik => some (s.estimate_quality * seg.weight * terms.sum * (1 - f_ik))
        else some (s.estimate_quality * seg.weight * terms.sum)) = some r := h
    cases ht : mapMOpt (fun p => (getKey mTbl p.1).bind
        (fun row => (getKey row n).map (fun nij => p.2 * nij))) s.markets with
    | none => rw [ht] at h; exact Option.noConfusion h
    | some terms =>
      rw [ht] at h
      replace h : s.estimate_quality * seg.weight * terms.sum = r := Option.some.inj h
      show (match getKey s.marketSegments n with
        | none => none
        | some f_ik => some (s.estimate_quality * seg.weight * terms.sum * (1 - f_ik))) =
          some (r * (1 - f))
      rw [hf, h]

/-- C7: whenever the raw derivative is defined and the differentiated
variable has a current normalized value X, the diminishing-returns call
returns exactly the raw derivative times (1 - X). -/
theorem C7_diminishing_returns (s : Ship) (mTbl : MarketsTable)
    (segTbl : MarketSegmentsTable) (kind : String) (name : Option String) (r x : ℚ)
    (hraw : s.estimate_buyin_change mTbl segTbl kind name false = some r)
    (hx : s.currentNormalizedValue kind name = some x) :
    s.estimate_buyin_change mTbl segTbl kind name true = some (r * (1 - x)) := by
  unfold Ship.estimate_buyin_change at hraw ⊢
  unfold Ship.currentNormalizedValue at hx
  unfold Ship.buyinChangeNormalized at hraw ⊢
  by_cases hheld : heldMatches s.heldConstant (normalizeVariable kind) name = true
  · rw [if_pos hheld] at hraw ⊢
    replace hraw : (0 : ℚ) = r := Option.some.inj hraw
    rw [← hraw]
    norm_num
  · rw [if_neg hheld] at hraw ⊢
    by_cases h1 : normalizeVariable kind = "quality"
    · rw [if_pos h1] at hraw hx ⊢
      replace hx : s.estimate_quality = x := Option.some.inj hx
      rw [← hx]
      exact buyinChangeQuality_dt s mTbl segTbl r hraw
    · rw [if_neg h1] at hraw hx ⊢
      by_cases h2 : normalizeVariable kind = "criteria values"
      · rw [if_pos h2] at hraw hx ⊢
        cases name with
        | none => cases hx
        | some n =>
          replace hx : (getKey s.criteriaValues n).map (fun c => c / 10) = some x := hx
          cases hc : getKey s.criteriaValues n with
          | none => rw [hc] at hx; cases hx
          | some c =>
            rw [hc] at hx
            replace hx : c / 10 = x := Option.some.inj hx
            rw [← hx]
            exact buyinChangeCriteria_dt s mTbl segTbl n r c hraw hc
      · rw [if_neg h2] at hraw hx ⊢
        by_cases h3 : normalizeVariable kind = "markets"
        · rw [if_pos h3] at hraw hx ⊢
          cases name with
          | none => cases hx
          | some n =>
            replace hx : getKey s.markets n = some x := hx
            exact buyinChangeMarkets_dt s mTbl segTbl n r x hraw hx
        · rw [if_neg h3] at hraw hx ⊢
          by_cases h4 : normalizeVariable kind = "market segments"
          · rw [if_pos h4] at hraw hx ⊢
            cases name with
            | none => cases hx
            | some n =>
              replace hx : getKey s.marketSegments n = some x := hx
              exact buyinChangeSegments_dt s mTbl segTbl n r x hraw hx
          · rw [if_neg h4] at hraw hx ⊢
            cases hx

/-- Witness for C7 at a concrete ship: the transform multiplies the raw
quality derivative by one minus the quality. -/
theorem C7_diminishing_returns_witness :
    bareShip.estimate_buyin_change [] [] "quality" none true = some (0 * (1 - 1)) :=
  C7_diminishing_returns bareShip [] [] "quality" none 0 1
    (by
      unfold Ship.estimate_buyin_change Ship.buyinChangeNormalized
        Ship.buyinChangeQuality Ship.estimate_buyin
      norm_num [heldMatches, normalizeVariable, bareShip, Ship.estimate_quality])
    (by
      unfold Ship.currentNormalizedValue
      norm_num [normalizeVariable, bareShip, Ship.estimate_quality])

/-- C9: every shorthand spelling of a variable kind gives exactly the same
result as the long form, including the held-constant check, for every ship,
name and transform flag. -/
theorem C9_shorthand_kinds (s : Ship) (mTbl : MarketsTable)
    (segTbl : MarketSegmentsTable) (name : Option String) (dt : Bool) :
    (s.estimate_buyin_change mTbl segTbl "q" name dt =
      s.estimate_buyin_change mTbl segTbl "quality" name dt)
    ∧ (s.estimate_buyin_change mTbl segTbl "q_k" name dt =
      s.estimate_buyin_change mTbl segTbl "quality" name dt)
    ∧ (s.estimate_buyin_change mTbl segTbl "c" name dt =
      s.estimate_buyin_change mTbl segTbl "criteria values" name dt)
    ∧ (s.estimate_buyin_change mTbl segTbl "c_m" name dt =
      s.estimate_buyin_change mTbl segTbl "criteria values" name dt)
    ∧ (s.estimate_buyin_change mTbl segTbl "F" name dt =
      s.estimate_buyin_change mTbl segTbl "markets" name dt)
    ∧ (s.estimate_buyin_change mTbl segTbl "F_jk" name dt =
      s.estimate_buyin_change mTbl segTbl "markets" name dt)
    ∧ (s.estimate_buyin_change mTbl segTbl "f" name dt =
      s.estimate_buyin_change mTbl segTbl "market segments" name dt)
    ∧ (s.estimate_buyin_change mTbl segTbl "f_ik" name dt =
      s.estimate_buyin_change mTbl segTbl "market segments" name dt) :=
  ⟨rfl, rfl, rfl, rfl, rfl, rfl, rfl, rfl⟩

/-- Registry state: the configured criteria list, critical value, and the
ordered mapping from ship name to Ship. -/
structure Fleet where
  criteria : List String
  criticalValue : ℚ
  ships : List (String × Ship)
deriving DecidableEq, Repr

/-- Fleet.__getitem__: self.ships[key], raising when absent. -/
def Fleet.getShip (f : Fleet) (name : String) : Option Ship :=
  getKey f.ships name

/-- verdict.Dict deletion, del fleet.ships[name]: raises a not-found error
when the key is absent, otherwise removes the entry. -/
def Fleet.delShip (f : Fleet) (name : String) : Option Fleet :=
  match f.getShip name with
  | none => none
  | some _ => some { f with ships := delKey f.ships name }

/-- Fleet.move_ship run with two distinct Fleet objects: read the ship from
the source (KeyError when absent), install a deep copy in the destination
under the new name (deep copy = value copy in this embedding), delete the
source entry, then rename the installed copy. -/
def Fleet.move_ship (dst src : Fleet) (name : String) (newName : Option String) :
    Option (Fleet × Fleet) :=
  let nn := newName.getD name
  match src.getShip name with
  | none => none
  | some sh =>
    let dst1 : Fleet := { dst with ships := setKey dst.ships nn sh }
    let src1 : Fleet := { src with ships := delKey src.ships name }
    match dst1.getShip nn with
    | none => none
    | some sh1 =>
      some ({ dst1 with ships := setKey dst1.ships nn { sh1 with name := nn } }, src1)

/-- Fleet.move_ship run with self as the source object (the documented rename
use).  The boolean is true when the Python call raises; the Fleet component
is the state left behind, mutations made before the raise included. -/
def Fleet.moveShipSelf (f : Fleet) (name : String) (newName : Option String) :
    Fleet × Bool :=
  let nn := newName.getD name
  match f.getShip name with
  | none => (f, true)
  | some sh =>
    let f1 : Fleet := { f with ships := setKey f.ships nn sh }
    let f2 : Fleet := { f1 with ships := delKey f1.ships name }
    match f2.getShip nn with
    | none => (f2, true)
    | some sh1 =>
      ({ f2 with ships := setKey f2.ships nn { sh1 with name := nn } }, false)

/-- C8: moving a ship between two registries installs in the destination a
full copy of the ship state under the target name (with only the name
attribute rewritten), removes the name from the source so that a subsequent
deletion there raises not-found, and leaves every other source entry
untouched; the two registries share no state afterwards, the copy being by
value. -/
theorem C8_move_ship (dst src : Fleet) (name : String) (newName : Option String)
    (sh : Ship) (hsrc : src.getShip name = some sh) :
    ∃ dst2 src1 : Fleet,
      Fleet.move_ship dst src name newName = some (dst2, src1)
      ∧ dst2.getShip (newName.getD name) = some { sh with name := newName.getD name }
      ∧ src1.getShip name = none
      ∧ src1.delShip name = none
      ∧ (∀ k, k ≠ name → src1.getShip k = src.getShip k)
      ∧ (∀ k, k ≠ newName.getD name → dst2.getShip k = dst.getShip k) := by
  have hd1 : Fleet.getShip
      { dst with ships := setKey dst.ships (newName.getD name) sh }
      (newName.getD name) = some sh :=
    getKey_setKey_self dst.ships (newName.getD name) sh
  have hsg : Fleet.getShip { src with ships := delKey src.ships name } name = none :=
    getKey_delKey_self src.ships name
  refine ⟨⟨dst.criteria, dst.criticalValue,
      setKey (setKey dst.ships (newName.getD name) sh) (newName.getD name)
        ({ sh with name := newName.getD name })⟩,
    ⟨src.criteria, src.criticalValue, delKey src.ships name⟩, ?_, ?_, ?_, ?_, ?_, ?_⟩
  · unfold Fleet.move_ship
    rw [hsrc]
    simp only []
    rw [hd1]
  · exact getKey_setKey_self (setKey dst.ships (newName.getD name) sh)
      (newName.getD name) { sh with name := newName.getD name }
  · exact hsg
  · unfold Fleet.delShip
    rw [hsg]
  · intro k hk
    exact getKey_delKey_ne src.ships name k hk
  · intro k hk
    have h1 := getKey_setKey_ne (setKey dst.ships (newName.getD name) sh)
      (newName.getD name) k { sh with name := newName.getD name } hk
    have h2 := getKey_setKey_ne dst.ships (newName.getD name) k sh hk
    exact h1.trans h2

/-- Source fleet for the C8 witness. -/
def srcFleetW : Fleet :=
  { criteria := ["functionality"]
    criticalValue := 8
    ships := [("X", chellShip)] }

/-- Destination fleet for the C8 witness. -/
def dstFleetW : Fleet :=
  { criteria := ["functionality"]
    criticalValue := 8
    ships := [] }

/-- Witness for C8 at concrete registries. -/
theorem C8_move_ship_witness :
    ∃ dst2 src1 : Fleet,
      Fleet.move_ship dstFleetW srcFleetW "X" none = some (dst2, src1)
      ∧ dst2.getShip ((none : Option String).getD "X") =
          some { chellShip with name := (none : Option String).getD "X" }
      ∧ src1.getShip "X" = none
      ∧ src1.delShip "X" = none
      ∧ (∀ k, k ≠ "X" → src1.getShip k = srcFleetW.getShip k)
      ∧ (∀ k, k ≠ (none : Option String).getD "X" →
          dst2.getShip k = dstFleetW.getShip k) :=
  C8_move_ship dstFleetW srcFleetW "X" none chellShip rfl

/-- C10: calling move_ship with the registry itself as source and the name
unchanged loses the ship: the freshly installed copy is deleted by the
removal step, the final rename line raises, and afterwards the name no
longer resolves in the registry. -/
theorem C10_self_move (f : Fleet) (name : String) (newName : Option String)
    (sh : Ship) (hf : f.getShip name = some sh)
    (hnn : newName = none ∨ newName = some name) :
    (f.moveShipSelf name newName).2 = true
    ∧ (f.moveShipSelf name newName).1.getShip name = none := by
  have hnn2 : newName.getD name = name := by
    rcases hnn with rfl | rfl <;> rfl
  have hgone : Fleet.getShip
      { f with ships := delKey (setKey f.ships name sh) name } name = none :=
    getKey_delKey_self (setKey f.ships name sh) name
  unfold Fleet.moveShipSelf
  rw [hnn2, hf]
  simp only []
  rw [hgone]
  exact ⟨rfl, hgone⟩

/-- Witness for C10 at a concrete registry: the ship named X is lost. -/
theorem C10_self_move_witness :
    (srcFleetW.moveShipSelf "X" none).2 = true
    ∧ (srcFleetW.moveShipSelf "X" none).1.getShip "X" = none :=
  C10_self_move srcFleetW "X" none chellShip rfl (Or.inl rfl)
